import Mathlib

/-!
Verification of the document chatbot application (`app.py`).

Python strings are modelled as lists of characters (`PyStr`), which matches
Python's view of a string as a sequence of code points.  External services
(the hosted language model, file readers, the vector store, the RAG chain)
are modelled as oracle parameters: a remote call that can raise an exception
becomes a function into `Option`, with `none` standing for a raised
exception.
-/

set_option autoImplicit false

abbrev PyStr := List Char

/-- Whitespace predicate used by Python's `str.strip()` (restricted to the
ASCII whitespace characters; the claims only ever strip spaces and
newlines). -/
def pyIsSpace (c : Char) : Bool :=
  c == ' ' || c == '\t' || c == '\n' || c == '\x0b' || c == '\x0c' || c == '\r'

/-- Python `str.lstrip()`. -/
def pyLStrip (s : PyStr) : PyStr := s.dropWhile pyIsSpace

/-- Python `str.rstrip()`. -/
def pyRStrip (s : PyStr) : PyStr := (s.reverse.dropWhile pyIsSpace).reverse

/-- Python `str.strip()`. -/
def pyStrip (s : PyStr) : PyStr := pyLStrip (pyRStrip s)

/-- Python `str.lower()` (per-character lowering). -/
def pyLower (s : PyStr) : PyStr := s.map Char.toLower

/-- Python `str.split(sep)` for a one-character separator: splits at every
occurrence of the separator and keeps empty pieces, so that
`"".split(sep) == [""]`. -/
def pySplitChar (sep : Char) : PyStr → List PyStr
  | [] => [[]]
  | c :: rest =>
    if c == sep then [] :: pySplitChar sep rest
    else
      match pySplitChar sep rest with
      | [] => [[c]]
      | h :: t => (c :: h) :: t

/-- Python string join with separator `sep`. -/
def pyJoin (sep : PyStr) : List PyStr → PyStr
  | [] => []
  | [x] => x
  | x :: y :: ys => x ++ sep ++ pyJoin sep (y :: ys)

/-- Python `s.startswith(pre)`. -/
def listStartsWith : PyStr → PyStr → Bool
  | [], _ => true
  | _ :: _, [] => false
  | p :: ps, c :: cs => p == c && listStartsWith ps cs

/-- Python `s.endswith(suf)`. -/
def listEndsWith (suf s : PyStr) : Bool := listStartsWith suf.reverse s.reverse

/-- The loop of `chunk_text` (app.py lines 63-75): `chunks` is the list built
so far, `current` is `current_chunk`, and the first list argument is the list
of paragraphs still to process. -/
def chunkLoop (maxChunkSize : Nat) : List PyStr → List PyStr → PyStr → List PyStr
  | [], chunks, current => if current = [] then chunks else chunks ++ [current]
  | p :: ps, chunks, current =>
    if maxChunkSize < current.length + p.length then
      chunkLoop maxChunkSize ps (chunks ++ [current]) (p ++ ['\n'])
    else
      chunkLoop maxChunkSize ps chunks (current ++ p ++ ['\n'])

/-- `chunk_text` (app.py lines 61-77): split the text on newlines and greedily
accumulate paragraphs, starting a new chunk when adding the next paragraph
would push the current chunk past `maxChunkSize`. -/
def chunk_text (text : PyStr) (maxChunkSize : Nat) : List PyStr :=
  chunkLoop maxChunkSize (pySplitChar '\n' text) [] []

/-- Length of the longest line of the text (an auxiliary bound for the
corrected form of the chunk-size claim). -/
def maxLineLen (text : PyStr) : Nat :=
  ((pySplitChar '\n' text).map List.length).foldr Nat.max 0

/-- The summary prompt template (app.py line 196). -/
def summaryPrompt (chunk : PyStr) : PyStr :=
  ("Please summarize the following text concisely:\n\n").data ++ chunk

/-- The loop of `generate_summary` (app.py lines 195-200): one remote call per
chunk, accumulating `stripped response + " "`.  A raised exception (`none`)
escapes to the surrounding handler, which returns `None`. -/
def summaryLoop (model : PyStr → Option PyStr) : List PyStr → PyStr → Option PyStr
  | [], summary => some (pyStrip summary)
  | chunk :: rest, summary =>
    match model (summaryPrompt chunk) with
    | none => none
    | some r => summaryLoop model rest (summary ++ pyStrip r ++ [' '])

/-- `generate_summary` (app.py lines 177-207): chunk with budget 8000, call
the model once per chunk, return the accumulated summary stripped; `none`
models the `except` branch returning `None`. -/
def generate_summary (model : PyStr → Option PyStr) (text : PyStr) : Option PyStr :=
  summaryLoop model (chunk_text text 8000) []

/-- The algorithm claim C4 states for `generate_summary`, written from the
spec's words: map the model over the chunks in order with the fixed template,
strip each response, join with single spaces, strip the result. -/
def summarySpec (f : PyStr → PyStr) (text : PyStr) : PyStr :=
  pyStrip (pyJoin [' ']
    ((chunk_text text 8000).map (fun c => pyStrip (f (summaryPrompt c)))))

/-- The bullet-point prompt template (app.py lines 230-240), an f-string with
the chunk spliced in before the trailing indentation. -/
def bulletPrompt (chunk : PyStr) : PyStr :=
  ("\n                Extract 5-10 key points from the following text as bullet points.\n                Format each point with a bullet (•) at the beginning.\n                Make sure each point is clear and concise.\n\n                IMPORTANT: Do not include any introductory text like \"Here are key points\" or any headers.\n                Start directly with the bullet points themselves.\n\n                Text:\n                ").data
    ++ chunk ++ ("\n                ").data

/-- The introductory phrases filtered out of bullet output
(app.py lines 268-270). -/
def introPhrases : List PyStr :=
  [("here are").data, ("key points").data, ("points extracted").data,
   ("following are").data]

/-- The strings accepted as a leading bullet marker (the tuple passed to
`startswith` on app.py line 273). -/
def bulletStarters : List PyStr :=
  [['•'], ['-'], ['*'], ['1', '.'], ['2', '.'], ['3', '.'], ['4', '.'],
   ['5', '.'], ['6', '.'], ['7', '.'], ['8', '.'], ['9', '.']]

/-- `line.startswith(('•', '-', '*', '1.', ..., '9.'))` (app.py line 273). -/
def hasBulletMarker (line : PyStr) : Bool :=
  bulletStarters.any (fun m => listStartsWith m line)

/-- `any(line.lower().startswith(prefix) for prefix in [...])`
(app.py lines 268-270). -/
def isIntroLine (line : PyStr) : Bool :=
  introPhrases.any (fun p => listStartsWith p (pyLower line))

/-- App.py lines 273-274: prepend a bullet when the line lacks a marker. -/
def normalizeBullet (line : PyStr) : PyStr :=
  if hasBulletMarker line then line else '•' :: ' ' :: line

/-- The cleanup loop of `generate_bullet_points` (app.py lines 263-280):
first argument is `seen_lines`, second the remaining lines of the combined
bullet text. -/
def bulletCleanLoop : List PyStr → List PyStr → List PyStr
  | _, [] => []
  | seen, l :: ls =>
    let line := pyStrip l
    if line = [] then bulletCleanLoop seen ls
    else if isIntroLine line then bulletCleanLoop seen ls
    else
      let nline := normalizeBullet line
      if nline ∈ seen then bulletCleanLoop seen ls
      else nline :: bulletCleanLoop (nline :: seen) ls

/-- The `processed_bullets` list computed by the cleanup
(app.py lines 258-280). -/
def processBullets (lines : List PyStr) : List PyStr := bulletCleanLoop [] lines

/-- The header prepended to the cleaned bullet list (app.py line 282). -/
def keyPointsHeader : PyStr := ("Key Points:\n\n").data

/-- `combined_bullets` (app.py lines 228-255): one remote call per chunk, a
failing call (`none`) is reported and its chunk skipped by the inner
`except`; the stripped responses of the successful calls are joined with
newlines. -/
def combinedBullets (model : PyStr → Option PyStr) (text : PyStr) : PyStr :=
  pyJoin ['\n']
    ((chunk_text text 8000).filterMap (fun c => (model (bulletPrompt c)).map pyStrip))

/-- `generate_bullet_points` (app.py lines 210-292): clean the combined
bullet text; return it raw when the cleanup kept nothing, otherwise prepend
the header.  In this embedding no exception can reach the outer handler, so
the result is always `some`. -/
def generate_bullet_points (model : PyStr → Option PyStr) (text : PyStr) :
    Option PyStr :=
  let combined := combinedBullets model text
  let processed := processBullets (pySplitChar '\n' combined)
  if processed = [] then some combined
  else some (keyPointsHeader ++ pyJoin ['\n'] processed)

/-- Claim C5's description of which lines survive the cleanup: not blank and
not an introductory line. -/
def lineKept (line : PyStr) : Bool := !line.isEmpty && !isIntroLine line

/-- Keep the first occurrence of each string, dropping later duplicates;
first argument is the set of strings already seen. -/
def dedupFirstFrom : List PyStr → List PyStr → List PyStr
  | _, [] => []
  | seen, x :: xs =>
    if x ∈ seen then dedupFirstFrom seen xs
    else x :: dedupFirstFrom (x :: seen) xs

/-- De-duplication keeping first occurrences, as claim C5 words it. -/
def dedupFirst (l : List PyStr) : List PyStr := dedupFirstFrom [] l

/-- Claim C5's description of the whole cleanup, written from the spec's
words: strip every line, drop blank and introductory lines, normalize the
bullet marker, then drop later occurrences of a line equal to an earlier
kept one. -/
def cleanupSpec (lines : List PyStr) : List PyStr :=
  dedupFirst (((lines.map pyStrip).filter lineKept).map normalizeBullet)

/-- A model oracle that always answers with one fixed bullet line. -/
def constBulletModel : PyStr → Option PyStr := fun _ => some (("• a").data)

/-- A model oracle whose every call raises. -/
def noneModel : PyStr → Option PyStr := fun _ => none

/-- A single 8000-character line, long enough to force a chunk boundary at
the default budget. -/
def cexBigLine : PyStr := List.replicate 8000 'a'

/-- A two-chunk document: the long line, a newline, and a one-character
second line. -/
def cexText : PyStr := cexBigLine ++ '\n' :: 'b' :: []

/-- A model oracle that raises on the long first-chunk prompt (any prompt
over 2000 characters) and answers the short second-chunk prompt with one
bullet line. -/
def cexFailFirstModel : PyStr → Option PyStr :=
  fun p => if 2000 < p.length then none else some (("• alpha").data)

/-- An uploaded file: its name and its raw content, of abstract type. -/
structure UploadedFile (β : Type) where
  name : PyStr
  content : β

/-- `extract_text_from_pdf` (app.py lines 24-30): concatenate every page's
text followed by a newline; the page texts come from the external PDF
reader. -/
def extract_text_from_pdf (pages : List PyStr) : PyStr :=
  (pages.map (fun p => p ++ ['\n'])).flatten

/-- `extract_text_from_docx` (app.py lines 33-39): concatenate every
paragraph's text followed by a newline; the paragraph texts come from the
external DOCX reader. -/
def extract_text_from_docx (paras : List PyStr) : PyStr :=
  (paras.map (fun p => p ++ ['\n'])).flatten

/-- `extract_text` (app.py lines 47-58): dispatch on the lowercased file
name.  `pdfPages` and `docxParas` are the external readers, `decodeUtf8`
the UTF-8 decoding of the raw TXT bytes; an unsupported extension reports
an error and returns `None`. -/
def extract_text {β : Type} (pdfPages docxParas : β → List PyStr)
    (decodeUtf8 : β → PyStr) (file : UploadedFile β) : Option PyStr :=
  let file_name := pyLower file.name
  if listEndsWith ((".pdf").data) file_name then
    some (extract_text_from_pdf (pdfPages file.content))
  else if listEndsWith ((".docx").data) file_name then
    some (extract_text_from_docx (docxParas file.content))
  else if listEndsWith ((".txt").data) file_name then
    some (decodeUtf8 file.content)
  else none

/-- Concrete files and readers used to witness the dispatch theorem. -/
def pdfFile : UploadedFile Unit := ⟨("Report.PDF").data, ()⟩

def docxFile : UploadedFile Unit := ⟨("notes.docx").data, ()⟩

def txtFile : UploadedFile Unit := ⟨("a.TXT").data, ()⟩

def binFile : UploadedFile Unit := ⟨("image.png").data, ()⟩

def constPages : Unit → List PyStr := fun _ => [("P").data]

def constDecode : Unit → PyStr := fun _ => ("T").data

/-- Configuration handed to the library RecursiveCharacterTextSplitter in
`create_vector_store` (app.py lines 85-89). -/
structure SplitterConfig where
  chunkSize : Nat
  chunkOverlap : Nat

/-- chunk_size 1000 and chunk_overlap 200, app.py lines 86-87. -/
def ragSplitterConfig : SplitterConfig := ⟨1000, 200⟩

/-- The per-chunk metadata `{"source": f"chunk_{i}"}` (app.py line 96). -/
def chunkMetadatas (chunks : List PyStr) : List PyStr :=
  (List.range chunks.length).map (fun i => ("chunk_").data ++ (Nat.repr i).data)

/-- `create_vector_store` (app.py lines 81-112): split the text with the
library splitter, attach the chunk metadata, and build the FAISS index with
the external embedding model (the `buildIndex` oracle; `none` models the
`except` branch returning `None`). -/
def create_vector_store {V : Type} (split : SplitterConfig → PyStr → List PyStr)
    (buildIndex : List PyStr → List PyStr → Option V) (text : PyStr) : Option V :=
  let chunks := split ragSplitterConfig text
  buildIndex chunks (chunkMetadatas chunks)

/-- The retriever configuration of `setup_rag_chain`:
`search_kwargs={"k": 3}` on app.py line 138. -/
structure ChainConfig where
  k : Nat

/-- k = 3 retrieved passages, app.py line 138. -/
def ragChainConfig : ChainConfig := ⟨3⟩

/-- `setup_rag_chain` (app.py lines 115-149): build the conversational
retrieval chain from the vector store's retriever with k = 3; the external
LLM, memory and chain construction are the `buildChain` oracle, and `none`
models the `except` branch returning `None`. -/
def setup_rag_chain {V C : Type} (buildChain : V → ChainConfig → Option C)
    (vectorStore : V) : Option C :=
  buildChain vectorStore ragChainConfig

/-- A retrieved source document: its text and its "source" metadata entry
(`none` when the metadata lacks the key). -/
structure RagDoc where
  page_content : PyStr
  source : Option PyStr

/-- The chain's response dictionary: the answer and the source documents. -/
structure RagResponse where
  answer : PyStr
  source_documents : List RagDoc

/-- One formatted source line (app.py lines 165-167):
`**source**: preview`, where the preview is truncated to the first 100
characters plus "..." when the content is longer than 100 characters. -/
def formatSourceLine (i : Nat) (doc : RagDoc) : PyStr :=
  let source := match doc.source with
    | some s => s
    | none => ("Source ").data ++ (Nat.repr (i + 1)).data
  let preview :=
    if 100 < doc.page_content.length then doc.page_content.take 100 ++ ("...").data
    else doc.page_content
  ("**").data ++ source ++ ("**: ").data ++ preview

/-- The `for i, doc in enumerate(source_docs)` loop (app.py lines 164-167). -/
def ragSourcesLoop : Nat → List RagDoc → List PyStr
  | _, [] => []
  | i, doc :: rest => formatSourceLine i doc :: ragSourcesLoop (i + 1) rest

/-- The fixed error reply of `rag_answer_question` (app.py line 174). -/
def ragErrorReply : PyStr :=
  ("Error processing your question. Please try again.").data

/-- `rag_answer_question` (app.py lines 152-174): query the chain; on a
raised exception report the error and return the fixed error pair,
otherwise return the answer and one formatted source per document. -/
def rag_answer_question (chain : PyStr → Option RagResponse) (question : PyStr) :
    PyStr × List PyStr :=
  match chain question with
  | none => (ragErrorReply, [])
  | some resp => (resp.answer, ragSourcesLoop 0 resp.source_documents)

/-- Concrete chains and document used to witness the RAG answer theorem. -/
def witnessDoc : RagDoc := ⟨("body").data, some (("chunk_0").data)⟩

def okChain : PyStr → Option RagResponse := fun _ => some ⟨("ans").data, [witnessDoc]⟩

def failChain : PyStr → Option RagResponse := fun _ => none

theorem pySplitChar_ne_nil (sep : Char) (s : PyStr) : pySplitChar sep s ≠ [] := by
  cases s with
  | nil => simp [pySplitChar]
  | cons c rest =>
    simp only [pySplitChar]
    by_cases h : (c == sep) = true
    · simp [h]
    · simp only [h, if_false, Bool.false_eq_true]
      cases hr : pySplitChar sep rest <;> simp

theorem pySplitChar_join_map (sep : Char) (s : PyStr) :
    ((pySplitChar sep s).map (fun p => p ++ [sep])).flatten = s ++ [sep] := by
  induction s with
  | nil => simp [pySplitChar]
  | cons c rest ih =>
    simp only [pySplitChar]
    by_cases h : (c == sep) = true
    · have hc : c = sep := eq_of_beq h
      simp [h, ih, hc]
    · simp only [h, if_false, Bool.false_eq_true]
      cases hr : pySplitChar sep rest with
      | nil => exact absurd hr (pySplitChar_ne_nil sep rest)
      | cons hd tl =>
        rw [hr] at ih
        simp only [List.map_cons, List.flatten_cons, List.cons_append,
          List.append_assoc] at ih ⊢
        rw [ih]

theorem chunkLoop_join (m : Nat) :
    ∀ (ps chunks : List PyStr) (current : PyStr),
      (chunkLoop m ps chunks current).flatten =
        chunks.flatten ++ current ++ (ps.map (fun p => p ++ ['\n'])).flatten := by
  intro ps
  induction ps with
  | nil =>
    intro chunks current
    by_cases h : current = [] <;> simp [chunkLoop, h]
  | cons p ps ih =>
    intro chunks current
    simp only [chunkLoop]
    by_cases h : m < current.length + p.length
    · rw [if_pos h, ih]
      simp [List.append_assoc]
    · rw [if_neg h, ih]
      simp [List.append_assoc]

theorem chunkLoop_ne_nil (m : Nat) :
    ∀ (ps chunks : List PyStr) (current : PyStr),
      chunks ≠ [] ∨ current ≠ [] ∨ ps ≠ [] → chunkLoop m ps chunks current ≠ [] := by
  intro ps
  induction ps with
  | nil =>
    intro chunks current h
    simp only [chunkLoop]
    by_cases hc : current = []
    · rw [if_pos hc]
      rcases h with h | h | h
      · exact h
      · exact absurd hc h
      · exact absurd rfl h
    · rw [if_neg hc]
      simp
  | cons p ps ih =>
    intro chunks current _
    simp only [chunkLoop]
    by_cases h : m < current.length + p.length
    · rw [if_pos h]
      exact ih _ _ (Or.inl (by simp))
    · rw [if_neg h]
      exact ih _ _ (Or.inr (Or.inl (by simp)))

theorem chunkLoop_length_le (m L : Nat) :
    ∀ (ps chunks : List PyStr) (current : PyStr),
      (∀ p ∈ ps, p.length ≤ L) →
      (∀ c ∈ chunks, c.length ≤ Nat.max m L + 1) →
      current.length ≤ Nat.max m L + 1 →
      ∀ c ∈ chunkLoop m ps chunks current, c.length ≤ Nat.max m L + 1 := by
  intro ps
  induction ps with
  | nil =>
    intro chunks current _ hchunks hcur c hc
    simp only [chunkLoop] at hc
    by_cases h : current = []
    · rw [if_pos h] at hc
      exact hchunks c hc
    · rw [if_neg h] at hc
      rcases List.mem_append.1 hc with h' | h'
      · exact hchunks c h'
      · simp only [List.mem_singleton] at h'
        subst h'
        exact hcur
  | cons p ps ih =>
    intro chunks current hps hchunks hcur c hc
    have hpL : p.length ≤ L := hps p (List.mem_cons_self p ps)
    have hpsL : ∀ q ∈ ps, q.length ≤ L := fun q hq => hps q (List.mem_cons_of_mem p hq)
    simp only [chunkLoop] at hc
    by_cases h : m < current.length + p.length
    · rw [if_pos h] at hc
      refine ih _ _ hpsL ?_ ?_ c hc
      · intro d hd
        rcases List.mem_append.1 hd with h' | h'
        · exact hchunks d h'
        · simp only [List.mem_singleton] at h'
          subst h'
          exact hcur
      · have h1 : (p ++ ['\n']).length ≤ L + 1 := by
          simp only [List.length_append, List.length_singleton]
          omega
        exact Nat.le_trans h1 (Nat.succ_le_succ (Nat.le_max_right m L))
    · rw [if_neg h] at hc
      refine ih _ _ hpsL hchunks ?_ c hc
      have h1 : (current ++ p ++ ['\n']).length ≤ m + 1 := by
        simp only [List.length_append, List.length_singleton]
        omega
      exact Nat.le_trans h1 (Nat.succ_le_succ (Nat.le_max_left m L))

theorem le_foldr_max (l : List Nat) : ∀ x ∈ l, x ≤ l.foldr Nat.max 0 := by
  induction l with
  | nil => simp
  | cons a t ih =>
    intro x hx
    rcases List.mem_cons.1 hx with rfl | h
    · exact Nat.le_max_left _ _
    · exact Nat.le_trans (ih x h) (Nat.le_max_right a (t.foldr Nat.max 0))

/-- Claim C1 is false as stated: with text `"ab"` and budget `2`, `chunk_text`
returns the single chunk `"ab\n"`, of length `3 > 2` (the loop appends a
newline to every paragraph, so even short lines overshoot the budget). -/
theorem chunk_text_exceeds_budget :
    (chunk_text (("ab").data) 2).any (fun c => decide (2 < c.length)) = true := by
  decide

/-- Claim C1 (amended): every chunk returned by `chunk_text text m` has length
at most `max m L + 1`, where `L` is the length of the longest line of the
text; in particular the budget can be exceeded both by the appended newline
and by a single line longer than the budget. -/
theorem chunk_text_length_bound (text : PyStr) (m : Nat) :
    ∀ c ∈ chunk_text text m, c.length ≤ Nat.max m (maxLineLen text) + 1 := by
  apply chunkLoop_length_le
  · intro p hp
    exact le_foldr_max _ _ (List.mem_map_of_mem List.length hp)
  · intro c hc
    simp at hc
  · exact Nat.zero_le _

theorem chunk_text_length_bound_witness :
    ('a' :: 'b' :: '\n' :: []) ∈ chunk_text (("ab").data) 2 ∧
      ('a' :: 'b' :: '\n' :: []).length ≤ Nat.max 2 (maxLineLen (("ab").data)) + 1 :=
  ⟨by decide, chunk_text_length_bound (("ab").data) 2 ('a' :: 'b' :: '\n' :: []) (by decide)⟩

/-- Claim C8: concatenating the chunks of `chunk_text text m` in order gives
exactly the text followed by one trailing newline, and the chunk list is
never empty. -/
theorem chunk_text_concat (text : PyStr) (m : Nat) (_hm : 0 < m) :
    (chunk_text text m).flatten = text ++ ['\n'] ∧ chunk_text text m ≠ [] := by
  constructor
  · rw [chunk_text, chunkLoop_join]
    simp [pySplitChar_join_map]
  · exact chunkLoop_ne_nil m _ [] [] (Or.inr (Or.inr (pySplitChar_ne_nil '\n' text)))

theorem chunk_text_concat_witness :
    (chunk_text (("a\nb").data) 5).flatten = ("a\nb").data ++ ['\n'] ∧
      chunk_text (("a\nb").data) 5 ≠ [] :=
  chunk_text_concat (("a\nb").data) 5 (by decide)

theorem pyRStrip_append_space (x : PyStr) : pyRStrip (x ++ [' ']) = pyRStrip x := by
  simp [pyRStrip, List.reverse_append, List.dropWhile_cons, pyIsSpace]

theorem pyStrip_append_space (x : PyStr) : pyStrip (x ++ [' ']) = pyStrip x := by
  simp [pyStrip, pyRStrip_append_space]

theorem map_append_space_flatten (rs : List PyStr) (h : rs ≠ []) :
    (rs.map (fun r => r ++ [' '])).flatten = pyJoin [' '] rs ++ [' '] := by
  induction rs with
  | nil => exact absurd rfl h
  | cons r rest ih =>
    cases rest with
    | nil => simp [pyJoin]
    | cons r2 t =>
      simp only [List.map_cons, List.flatten_cons] at ih ⊢
      rw [ih (by simp), pyJoin]
      simp [List.append_assoc]

theorem strip_flatten_eq_strip_join (rs : List PyStr) :
    pyStrip ((rs.map (fun r => r ++ [' '])).flatten) = pyStrip (pyJoin [' '] rs) := by
  cases rs with
  | nil => rfl
  | cons r rest =>
    rw [map_append_space_flatten _ (by simp), pyStrip_append_space]

theorem summaryLoop_total (f : PyStr → PyStr) :
    ∀ (cs : List PyStr) (acc : PyStr),
      summaryLoop (fun p => some (f p)) cs acc =
        some (pyStrip
          (acc ++ (cs.map (fun c => pyStrip (f (summaryPrompt c)) ++ [' '])).flatten)) := by
  intro cs
  induction cs with
  | nil => intro acc; simp [summaryLoop]
  | cons c rest ih =>
    intro acc
    simp only [summaryLoop]
    rw [ih]
    simp [List.append_assoc]

/-- Claim C4: with the remote model treated as an oracle from prompt to
response, `generate_summary` chunks the text with budget 8000, calls the
model once per chunk in chunk order with the fixed summary template, and
returns the stripped per-chunk responses concatenated in order separated by
single spaces, with the final result stripped. -/
theorem generate_summary_eq_spec (f : PyStr → PyStr) (text : PyStr) :
    generate_summary (fun p => some (f p)) text = some (summarySpec f text) := by
  rw [generate_summary, summaryLoop_total]
  congr 1
  simp only [List.nil_append]
  have hmaps :
      (chunk_text text 8000).map (fun c => pyStrip (f (summaryPrompt c)) ++ [' ']) =
        ((chunk_text text 8000).map (fun c => pyStrip (f (summaryPrompt c)))).map
          (fun r => r ++ [' ']) := by
    rw [List.map_map]
    rfl
  rw [hmaps, strip_flatten_eq_strip_join]
  rfl

theorem dedupFirstFrom_not_mem (xs : List PyStr) :
    ∀ (seen : List PyStr), ∀ y ∈ dedupFirstFrom seen xs, y ∉ seen := by
  induction xs with
  | nil => intro seen y hy; simp [dedupFirstFrom] at hy
  | cons x xs ih =>
    intro seen y hy
    simp only [dedupFirstFrom] at hy
    by_cases h : x ∈ seen
    · rw [if_pos h] at hy
      exact ih seen y hy
    · rw [if_neg h] at hy
      rcases List.mem_cons.1 hy with rfl | hy'
      · exact h
      · intro hseen
        exact ih (x :: seen) y hy' (List.mem_cons_of_mem x hseen)

theorem dedupFirstFrom_nodup (xs : List PyStr) :
    ∀ (seen : List PyStr), (dedupFirstFrom seen xs).Nodup := by
  induction xs with
  | nil => intro seen; simp [dedupFirstFrom]
  | cons x xs ih =>
    intro seen
    simp only [dedupFirstFrom]
    by_cases h : x ∈ seen
    · rw [if_pos h]; exact ih seen
    · rw [if_neg h]
      refine List.nodup_cons.2 ⟨?_, ih (x :: seen)⟩
      intro hx
      exact dedupFirstFrom_not_mem xs (x :: seen) x hx (List.mem_cons_self x seen)

theorem dedupFirstFrom_subset (xs : List PyStr) :
    ∀ (seen : List PyStr), ∀ y ∈ dedupFirstFrom seen xs, y ∈ xs := by
  induction xs with
  | nil => intro seen y hy; simp [dedupFirstFrom] at hy
  | cons x xs ih =>
    intro seen y hy
    simp only [dedupFirstFrom] at hy
    by_cases h : x ∈ seen
    · rw [if_pos h] at hy
      exact List.mem_cons_of_mem x (ih seen y hy)
    · rw [if_neg h] at hy
      rcases List.mem_cons.1 hy with rfl | hy'
      · exact List.mem_cons_self y xs
      · exact List.mem_cons_of_mem x (ih (x :: seen) y hy')

theorem bulletCleanLoop_eq_spec (lines : List PyStr) :
    ∀ (seen : List PyStr),
      bulletCleanLoop seen lines =
        dedupFirstFrom seen (((lines.map pyStrip).filter lineKept).map normalizeBullet) := by
  induction lines with
  | nil => intro seen; rfl
  | cons l ls ih =>
    intro seen
    simp only [List.map_cons]
    by_cases h1 : pyStrip l = []
    · have hl : bulletCleanLoop seen (l :: ls) = bulletCleanLoop seen ls := by
        simp [bulletCleanLoop, h1]
      have hr : List.filter lineKept (pyStrip l :: ls.map pyStrip) =
          List.filter lineKept (ls.map pyStrip) := by
        simp [List.filter_cons, lineKept, h1]
      rw [hl, hr]
      exact ih seen
    · by_cases h2 : isIntroLine (pyStrip l) = true
      · have hl : bulletCleanLoop seen (l :: ls) = bulletCleanLoop seen ls := by
          simp [bulletCleanLoop, h1, h2]
        have hr : List.filter lineKept (pyStrip l :: ls.map pyStrip) =
            List.filter lineKept (ls.map pyStrip) := by
          simp [List.filter_cons, lineKept, h2]
        rw [hl, hr]
        exact ih seen
      · have hfil : List.filter lineKept (pyStrip l :: ls.map pyStrip) =
            pyStrip l :: List.filter lineKept (ls.map pyStrip) := by
          simp [List.filter_cons, lineKept, h1, h2]
        rw [hfil, List.map_cons]
        by_cases h3 : normalizeBullet (pyStrip l) ∈ seen
        · have hl : bulletCleanLoop seen (l :: ls) = bulletCleanLoop seen ls := by
            simp [bulletCleanLoop, h1, h2, h3]
          have hr : dedupFirstFrom seen
                (normalizeBullet (pyStrip l) ::
                  (List.filter lineKept (ls.map pyStrip)).map normalizeBullet) =
              dedupFirstFrom seen
                ((List.filter lineKept (ls.map pyStrip)).map normalizeBullet) := by
            simp [dedupFirstFrom, h3]
          rw [hl, hr]
          exact ih seen
        · have hl : bulletCleanLoop seen (l :: ls) =
              normalizeBullet (pyStrip l) ::
                bulletCleanLoop (normalizeBullet (pyStrip l) :: seen) ls := by
            simp [bulletCleanLoop, h1, h2, h3]
          have hr : dedupFirstFrom seen
                (normalizeBullet (pyStrip l) ::
                  (List.filter lineKept (ls.map pyStrip)).map normalizeBullet) =
              normalizeBullet (pyStrip l) ::
                dedupFirstFrom (normalizeBullet (pyStrip l) :: seen)
                  ((List.filter lineKept (ls.map pyStrip)).map normalizeBullet) := by
            simp [dedupFirstFrom, h3]
          rw [hl, hr]
          exact congrArg _ (ih _)

/-- Claim C5: on any combined bullet text, the cleanup loop removes exactly
the blank lines, the lines whose lowercased stripped form starts with one of
the introductory phrases, and every later occurrence of a line equal (after
stripping and bullet normalization) to an earlier kept line; all other lines
are kept in their original order. -/
theorem processBullets_eq_cleanupSpec (lines : List PyStr) :
    processBullets lines = cleanupSpec lines :=
  bulletCleanLoop_eq_spec lines []

theorem processBullets_nodup (lines : List PyStr) : (processBullets lines).Nodup := by
  rw [processBullets, bulletCleanLoop_eq_spec]
  exact dedupFirstFrom_nodup _ _

theorem processBullets_mem {lines : List PyStr} {x : PyStr}
    (hx : x ∈ processBullets lines) :
    ∃ l ∈ lines, lineKept (pyStrip l) = true ∧ x = normalizeBullet (pyStrip l) := by
  rw [processBullets, bulletCleanLoop_eq_spec] at hx
  have hx' := dedupFirstFrom_subset _ _ x hx
  rcases List.mem_map.1 hx' with ⟨line, hline, rfl⟩
  rcases List.mem_filter.1 hline with ⟨hmem, hkept⟩
  rcases List.mem_map.1 hmem with ⟨l, hl, rfl⟩
  exact ⟨l, hl, hkept, rfl⟩

theorem mem_pyStrip {s : PyStr} {c : Char} (hc : c ∈ pyStrip s) : c ∈ s := by
  simp only [pyStrip, pyLStrip, pyRStrip] at hc
  have h1 := List.Sublist.mem hc (List.dropWhile_sublist _)
  have h2 := (List.mem_reverse).1 h1
  have h3 := List.Sublist.mem h2 (List.dropWhile_sublist _)
  exact (List.mem_reverse).1 h3

theorem mem_normalizeBullet {line : PyStr} {c : Char}
    (hc : c ∈ normalizeBullet line) : c = '•' ∨ c = ' ' ∨ c ∈ line := by
  rw [normalizeBullet] at hc
  by_cases h : hasBulletMarker line = true
  · rw [if_pos h] at hc
    exact Or.inr (Or.inr hc)
  · rw [if_neg h] at hc
    rcases List.mem_cons.1 hc with rfl | hc'
    · exact Or.inl rfl
    · rcases List.mem_cons.1 hc' with rfl | hc''
      · exact Or.inr (Or.inl rfl)
      · exact Or.inr (Or.inr hc'')

theorem normalizeBullet_ne_nil {line : PyStr} (h : line ≠ []) :
    normalizeBullet line ≠ [] := by
  rw [normalizeBullet]
  by_cases hm : hasBulletMarker line = true
  · rw [if_pos hm]; exact h
  · rw [if_neg hm]; simp

theorem normalizeBullet_marker (line : PyStr) :
    hasBulletMarker (normalizeBullet line) = true := by
  rw [normalizeBullet]
  by_cases h : hasBulletMarker line = true
  · rw [if_pos h]; exact h
  · rw [if_neg h]; rfl

theorem processBullets_props {lines : List PyStr}
    (hnl : ∀ l ∈ lines, '\n' ∉ l) :
    ∀ x ∈ processBullets lines, x ≠ [] ∧ '\n' ∉ x := by
  intro x hx
  rcases processBullets_mem hx with ⟨l, hl, hkept, rfl⟩
  have hne : pyStrip l ≠ [] := by
    intro h
    rw [lineKept, h] at hkept
    simp at hkept
  refine ⟨normalizeBullet_ne_nil hne, ?_⟩
  intro hcontra
  rcases mem_normalizeBullet hcontra with h | h | h
  · exact absurd h (by decide)
  · exact absurd h (by decide)
  · exact hnl l hl (mem_pyStrip h)

theorem pySplitChar_single {sep : Char} {x : PyStr} (h : sep ∉ x) :
    pySplitChar sep x = [x] := by
  induction x with
  | nil => rfl
  | cons c cs ih =>
    have hcsep : (c == sep) = false := by
      rw [beq_eq_false_iff_ne]
      intro hEq
      exact h (hEq ▸ List.mem_cons_self c cs)
    have hsep : sep ∉ cs := fun hmem => h (List.mem_cons_of_mem c hmem)
    simp only [pySplitChar, hcsep, Bool.false_eq_true, if_false]
    rw [ih hsep]

theorem pySplitChar_append {sep : Char} {x : PyStr} (h : sep ∉ x) (y : PyStr) :
    pySplitChar sep (x ++ sep :: y) = x :: pySplitChar sep y := by
  induction x with
  | nil => simp [pySplitChar]
  | cons c cs ih =>
    have hcsep : (c == sep) = false := by
      rw [beq_eq_false_iff_ne]
      intro hEq
      exact h (hEq ▸ List.mem_cons_self c cs)
    have hsep : sep ∉ cs := fun hmem => h (List.mem_cons_of_mem c hmem)
    simp only [List.cons_append, pySplitChar, hcsep, Bool.false_eq_true, if_false]
    simp only [List.append_eq]
    rw [ih hsep]

theorem pySplitChar_join {sep : Char} :
    ∀ (ps : List PyStr), ps ≠ [] → (∀ p ∈ ps, sep ∉ p) →
      pySplitChar sep (pyJoin [sep] ps) = ps := by
  intro ps
  induction ps with
  | nil => intro h _; exact absurd rfl h
  | cons x xs ih =>
    intro _ hall
    cases xs with
    | nil =>
      rw [pyJoin]
      exact pySplitChar_single (hall x (List.mem_cons_self x []))
    | cons y ys =>
      have hx : sep ∉ x := hall x (List.mem_cons_self x (y :: ys))
      have hjoin : pyJoin [sep] (x :: y :: ys) = x ++ sep :: pyJoin [sep] (y :: ys) := by
        rw [pyJoin]
        simp [List.append_assoc]
      rw [hjoin, pySplitChar_append hx]
      rw [ih (by simp) (fun p hp => hall p (List.mem_cons_of_mem x hp))]

theorem pySplitChar_no_sep (sep : Char) (s : PyStr) :
    ∀ p ∈ pySplitChar sep s, sep ∉ p := by
  induction s with
  | nil =>
    intro p hp
    simp only [pySplitChar, List.mem_singleton] at hp
    subst hp
    simp
  | cons c rest ih =>
    intro p hp
    simp only [pySplitChar] at hp
    by_cases h : (c == sep) = true
    · rw [if_pos h] at hp
      rcases List.mem_cons.1 hp with rfl | hp'
      · simp
      · exact ih p hp'
    · rw [if_neg h] at hp
      cases hr : pySplitChar sep rest with
      | nil => exact absurd hr (pySplitChar_ne_nil sep rest)
      | cons hd tl =>
        rw [hr] at hp
        have hhd : sep ∉ hd := by
          have : hd ∈ pySplitChar sep rest := by
            rw [hr]; exact List.mem_cons_self hd tl
          exact ih hd this
        rcases List.mem_cons.1 hp with rfl | hp'
        · intro hmem
          rcases List.mem_cons.1 hmem with hEq | hmem'
          · have hcs : c ≠ sep := by
              intro hEq2
              exact h (by simp [hEq2])
            exact hcs hEq.symm
          · exact hhd hmem'
        · have : p ∈ pySplitChar sep rest := by
            rw [hr]; exact List.mem_cons_of_mem hd hp'
          exact ih p this

theorem keyPointsHeader_decomp :
    keyPointsHeader = ("Key Points:").data ++ '\n' :: '\n' :: [] := by decide

theorem pySplitChar_header (J : PyStr) :
    pySplitChar '\n' (keyPointsHeader ++ J) =
      ("Key Points:").data :: [] :: pySplitChar '\n' J := by
  have h1 : keyPointsHeader ++ J = ("Key Points:").data ++ '\n' :: ('\n' :: J) := by
    rw [keyPointsHeader_decomp]
    simp
  rw [h1, pySplitChar_append (by decide)]
  have h2 : pySplitChar '\n' ('\n' :: J) = [] :: pySplitChar '\n' J := by
    simp [pySplitChar]
  rw [h2]

theorem generate_bullet_points_some_out {model : PyStr → Option PyStr}
    {text out : PyStr}
    (hout : generate_bullet_points model text = some out)
    (hne : processBullets (pySplitChar '\n' (combinedBullets model text)) ≠ []) :
    out = keyPointsHeader ++
      pyJoin ['\n'] (processBullets (pySplitChar '\n' (combinedBullets model text))) := by
  rw [generate_bullet_points] at hout
  simp only [if_neg hne] at hout
  exact (Option.some.inj hout).symm

/-- Claim C2: whenever the cleanup keeps at least one line, the lines that
follow the "Key Points:" header in the string returned by
`generate_bullet_points` are pairwise distinct. -/
theorem generate_bullet_points_nodup (model : PyStr → Option PyStr)
    (text out : PyStr)
    (hout : generate_bullet_points model text = some out)
    (hne : processBullets (pySplitChar '\n' (combinedBullets model text)) ≠ []) :
    ((pySplitChar '\n' out).drop 1).Nodup := by
  have hout' := generate_bullet_points_some_out hout hne
  subst hout'
  have hnl : ∀ l ∈ pySplitChar '\n' (combinedBullets model text), '\n' ∉ l :=
    pySplitChar_no_sep '\n' _
  have hprops := processBullets_props hnl
  have hsplit : pySplitChar '\n' (keyPointsHeader ++
      pyJoin ['\n'] (processBullets (pySplitChar '\n' (combinedBullets model text)))) =
      ("Key Points:").data :: [] ::
        processBullets (pySplitChar '\n' (combinedBullets model text)) := by
    rw [pySplitChar_header]
    rw [pySplitChar_join _ hne (fun p hp => (hprops p hp).2)]
  rw [hsplit]
  simp only [List.drop_succ_cons, List.drop_zero]
  refine List.nodup_cons.2 ⟨?_, processBullets_nodup _⟩
  intro hmem
  exact (hprops [] hmem).1 rfl

theorem generate_bullet_points_nodup_witness :
    ((pySplitChar '\n' (("Key Points:\n\n• a").data)).drop 1).Nodup :=
  generate_bullet_points_nodup constBulletModel ('x' :: [])
    (("Key Points:\n\n• a").data) (by decide) (by decide)

theorem listStartsWith_append (a b : PyStr) : listStartsWith a (a ++ b) = true := by
  induction a with
  | nil => rfl
  | cons c cs ih => simp [listStartsWith, ih]

/-- Claim C9: whenever the cleanup keeps at least one line, the returned
string starts with the "Key Points:" header followed by a blank line, and
every kept line starts with a bullet marker or a numeric prefix (lines
lacking one having had a bullet prepended). -/
theorem generate_bullet_points_format (model : PyStr → Option PyStr)
    (text out : PyStr)
    (hout : generate_bullet_points model text = some out)
    (hne : processBullets (pySplitChar '\n' (combinedBullets model text)) ≠ []) :
    listStartsWith keyPointsHeader out = true ∧
      ∀ l ∈ processBullets (pySplitChar '\n' (combinedBullets model text)),
        hasBulletMarker l = true := by
  constructor
  · rw [generate_bullet_points_some_out hout hne]
    exact listStartsWith_append _ _
  · intro l hl
    rcases processBullets_mem hl with ⟨l', _, _, rfl⟩
    exact normalizeBullet_marker _

theorem generate_bullet_points_format_witness :
    listStartsWith keyPointsHeader (("Key Points:\n\n• a").data) = true ∧
      ∀ l ∈ processBullets (pySplitChar '\n' (combinedBullets constBulletModel ('y' :: []))),
        hasBulletMarker l = true :=
  generate_bullet_points_format constBulletModel ('y' :: [])
    (("Key Points:\n\n• a").data) (by decide) (by decide)

theorem summaryLoop_abort (f : PyStr → Option PyStr) :
    ∀ (cs : List PyStr) (acc chunk : PyStr), chunk ∈ cs →
      f (summaryPrompt chunk) = none → summaryLoop f cs acc = none := by
  intro cs
  induction cs with
  | nil => intro acc chunk h _; simp at h
  | cons c rest ih =>
    intro acc chunk hmem hnone
    simp only [summaryLoop]
    rcases List.mem_cons.1 hmem with rfl | hmem'
    · rw [hnone]
    · cases hfc : f (summaryPrompt c) with
      | none => rfl
      | some r => exact ih _ chunk hmem' hnone

theorem generate_bullet_points_isSome (f : PyStr → Option PyStr) (text : PyStr) :
    generate_bullet_points f text ≠ none := by
  simp only [generate_bullet_points]
  by_cases h : processBullets (pySplitChar '\n' (combinedBullets f text)) = []
  · rw [if_pos h]; simp
  · rw [if_neg h]; simp

/-- Claim C3 (amended): a failing remote call aborts `generate_summary`,
which returns `None` with no partial result; but in `generate_bullet_points`
a failing per-chunk call is only reported and its chunk skipped, and the
operation always completes with a (possibly partial) result. -/
theorem generation_error_handling :
    (∀ (f : PyStr → Option PyStr) (text chunk : PyStr),
        chunk ∈ chunk_text text 8000 → f (summaryPrompt chunk) = none →
        generate_summary f text = none) ∧
      (∀ (f : PyStr → Option PyStr) (text : PyStr),
        generate_bullet_points f text ≠ none) := by
  constructor
  · intro f text chunk hmem hnone
    exact summaryLoop_abort f _ [] chunk hmem hnone
  · exact generate_bullet_points_isSome

theorem generation_error_handling_witness :
    generate_summary noneModel ('x' :: []) = none ∧
      generate_bullet_points noneModel ('x' :: []) ≠ none :=
  ⟨generation_error_handling.1 noneModel ('x' :: []) ('x' :: '\n' :: [])
      (by decide) rfl,
    generation_error_handling.2 noneModel ('x' :: [])⟩


theorem cex_newline_not_mem : '\n' ∉ cexBigLine := by
  rw [cexBigLine]
  intro h
  have h2 := (List.mem_replicate).1 h
  exact absurd h2.2 (by decide)

theorem cex_big_length : cexBigLine.length = 8000 := by
  rw [cexBigLine]
  exact List.length_replicate 8000 'a'

theorem chunkLoop_two (m : Nat) (p q : PyStr)
    (hp : ¬ m < p.length) (hq : m < p.length + 1 + q.length) :
    chunkLoop m [p, q] [] [] = [p ++ ['\n'], q ++ ['\n']] := by
  have hp' : ¬ m < ([] : PyStr).length + p.length := by simpa using hp
  have hq' : m < (([] : PyStr) ++ p ++ ['\n']).length + q.length := by
    simpa using hq
  rw [chunkLoop, if_neg hp', chunkLoop, if_pos hq', chunkLoop,
    if_neg (show ¬(q ++ ['\n'] = []) by simp)]
  simp

theorem cex_chunks :
    chunk_text cexText 8000 = [cexBigLine ++ ['\n'], 'b' :: '\n' :: []] := by
  have hsplit : pySplitChar '\n' cexText = [cexBigLine, ['b']] := by
    rw [cexText, pySplitChar_append cex_newline_not_mem]
    rw [pySplitChar_single (by decide : '\n' ∉ ['b'])]
  rw [chunk_text, hsplit]
  have hp : ¬ (8000 < cexBigLine.length) := by
    rw [cex_big_length]
    omega
  have hq : 8000 < cexBigLine.length + 1 + (['b'] : PyStr).length := by
    have hb : (['b'] : PyStr).length = 1 := rfl
    rw [cex_big_length, hb]
    omega
  rw [chunkLoop_two 8000 cexBigLine ['b'] hp hq]
  rfl

theorem cex_model_first :
    cexFailFirstModel (bulletPrompt (cexBigLine ++ ['\n'])) = none := by
  have h : 2000 < (bulletPrompt (cexBigLine ++ ['\n'])).length := by
    rw [bulletPrompt, List.length_append, List.length_append, List.length_append,
      cex_big_length]
    omega
  show (if 2000 < (bulletPrompt (cexBigLine ++ ['\n'])).length then (none : Option PyStr)
      else some (("• alpha").data)) = none
  exact if_pos h

set_option maxRecDepth 4000 in
theorem cex_model_second :
    cexFailFirstModel (bulletPrompt ('b' :: '\n' :: [])) = some (("• alpha").data) := by
  decide

theorem filterMap_pair {α β : Type} (f : α → Option β) (a b : α) (r : β)
    (ha : f a = none) (hb : f b = some r) :
    List.filterMap f [a, b] = [r] := by
  simp [ha, hb]

theorem cex_combined :
    combinedBullets cexFailFirstModel cexText = ("• alpha").data := by
  rw [combinedBullets, cex_chunks]
  rw [filterMap_pair _ _ _ (("• alpha").data) ?_ ?_]
  · rfl
  · show (cexFailFirstModel (bulletPrompt (cexBigLine ++ ['\n']))).map pyStrip = none
    rw [cex_model_first]
    rfl
  · show (cexFailFirstModel (bulletPrompt ('b' :: '\n' :: []))).map pyStrip =
      some (("• alpha").data)
    rw [cex_model_second]
    show some (pyStrip (("• alpha").data)) = some (("• alpha").data)
    rw [show pyStrip (("• alpha").data) = ("• alpha").data from by decide]

/-- Claim C3 is false as stated: in `generate_bullet_points`, on a two-chunk
document whose first chunk's remote call raises, the operation does not
abort; it returns a bullet list built from the second chunk (a partial
result). -/
theorem bullet_points_partial_result :
    cexFailFirstModel (bulletPrompt (cexBigLine ++ ['\n'])) = none ∧
      generate_bullet_points cexFailFirstModel cexText =
        some (("Key Points:\n\n• alpha").data) := by
  refine ⟨cex_model_first, ?_⟩
  simp only [generate_bullet_points, cex_combined]
  decide

theorem listStartsWith_cons_eq {a : Char} {p s : PyStr}
    (h : listStartsWith (a :: p) s = true) :
    ∃ cs, s = a :: cs ∧ listStartsWith p cs = true := by
  cases s with
  | nil => simp [listStartsWith] at h
  | cons c cs =>
    simp only [listStartsWith, Bool.and_eq_true, beq_iff_eq] at h
    exact ⟨cs, by rw [h.1], h.2⟩

theorem startsWith_cons_ne {a b : Char} {p q s : PyStr} (hab : b ≠ a)
    (h : listStartsWith (a :: p) s = true) :
    listStartsWith (b :: q) s = false := by
  rcases listStartsWith_cons_eq h with ⟨t, rfl, _⟩
  simp [listStartsWith, hab]

/-- Claim C6: `extract_text` dispatches on the lowercased file name: a name
ending in ".pdf" yields the PDF extraction, ".docx" the DOCX extraction,
".txt" the decoded bytes, and any other name yields `None` after the
unsupported-format error. -/
theorem extract_text_dispatch {β : Type} (pdfPages docxParas : β → List PyStr)
    (decodeUtf8 : β → PyStr) (file : UploadedFile β) :
    (listEndsWith ((".pdf").data) (pyLower file.name) = true →
        extract_text pdfPages docxParas decodeUtf8 file =
          some (extract_text_from_pdf (pdfPages file.content))) ∧
      (listEndsWith ((".docx").data) (pyLower file.name) = true →
        extract_text pdfPages docxParas decodeUtf8 file =
          some (extract_text_from_docx (docxParas file.content))) ∧
      (listEndsWith ((".txt").data) (pyLower file.name) = true →
        extract_text pdfPages docxParas decodeUtf8 file =
          some (decodeUtf8 file.content)) ∧
      (listEndsWith ((".pdf").data) (pyLower file.name) = false →
        listEndsWith ((".docx").data) (pyLower file.name) = false →
        listEndsWith ((".txt").data) (pyLower file.name) = false →
        extract_text pdfPages docxParas decodeUtf8 file = none) := by
  have hpdfrev : ((".pdf").data).reverse = 'f' :: 'd' :: 'p' :: '.' :: [] := by decide
  have hdocxrev : ((".docx").data).reverse = 'x' :: 'c' :: 'o' :: 'd' :: '.' :: [] := by
    decide
  have htxtrev : ((".txt").data).reverse = 't' :: 'x' :: 't' :: '.' :: [] := by decide
  refine ⟨?_, ?_, ?_, ?_⟩
  · intro h
    simp only [extract_text]
    rw [if_pos h]
  · intro h
    have hpdf : listEndsWith ((".pdf").data) (pyLower file.name) = false := by
      rw [listEndsWith, hdocxrev] at h
      rw [listEndsWith, hpdfrev]
      exact startsWith_cons_ne (by decide) h
    simp only [extract_text]
    rw [if_neg (by rw [hpdf]; exact Bool.false_ne_true), if_pos h]
  · intro h
    have hpdf : listEndsWith ((".pdf").data) (pyLower file.name) = false := by
      rw [listEndsWith, htxtrev] at h
      rw [listEndsWith, hpdfrev]
      exact startsWith_cons_ne (by decide) h
    have hdocx : listEndsWith ((".docx").data) (pyLower file.name) = false := by
      rw [listEndsWith, htxtrev] at h
      rw [listEndsWith, hdocxrev]
      exact startsWith_cons_ne (by decide) h
    simp only [extract_text]
    rw [if_neg (by rw [hpdf]; exact Bool.false_ne_true),
      if_neg (by rw [hdocx]; exact Bool.false_ne_true), if_pos h]
  · intro h1 h2 h3
    simp only [extract_text]
    rw [if_neg (by rw [h1]; exact Bool.false_ne_true),
      if_neg (by rw [h2]; exact Bool.false_ne_true),
      if_neg (by rw [h3]; exact Bool.false_ne_true)]

theorem extract_text_dispatch_witness :
    extract_text constPages constPages constDecode pdfFile =
        some (extract_text_from_pdf (constPages pdfFile.content)) ∧
      extract_text constPages constPages constDecode docxFile =
        some (extract_text_from_docx (constPages docxFile.content)) ∧
      extract_text constPages constPages constDecode txtFile =
        some (constDecode txtFile.content) ∧
      extract_text constPages constPages constDecode binFile = none :=
  ⟨(extract_text_dispatch constPages constPages constDecode pdfFile).1 (by decide),
   (extract_text_dispatch constPages constPages constDecode docxFile).2.1 (by decide),
   (extract_text_dispatch constPages constPages constDecode txtFile).2.2.1 (by decide),
   (extract_text_dispatch constPages constPages constDecode binFile).2.2.2
     (by decide) (by decide) (by decide)⟩

/-- Claim C7: the RAG variant configures the library text splitter with
passage size 1000 characters and overlap 200 (positive and below the
passage size, so consecutive passages share text), retrieves the k = 3 most
relevant passages, and delegates splitting, embedding, similarity search
and the model call to the external libraries modelled by the `split`,
`buildIndex` and `buildChain` oracles. -/
theorem rag_configuration :
    ragSplitterConfig.chunkSize = 1000 ∧
      ragSplitterConfig.chunkOverlap = 200 ∧
      0 < ragSplitterConfig.chunkOverlap ∧
      ragSplitterConfig.chunkOverlap < ragSplitterConfig.chunkSize ∧
      ragChainConfig.k = 3 ∧
      (∀ (V : Type) (split : SplitterConfig → PyStr → List PyStr)
          (buildIndex : List PyStr → List PyStr → Option V) (text : PyStr),
        create_vector_store split buildIndex text =
          buildIndex (split ragSplitterConfig text)
            (chunkMetadatas (split ragSplitterConfig text))) ∧
      (∀ (V C : Type) (buildChain : V → ChainConfig → Option C) (vs : V),
        setup_rag_chain buildChain vs = buildChain vs ragChainConfig) := by
  refine ⟨rfl, rfl, ?_, ?_, rfl, fun _ _ _ _ => rfl, fun _ _ _ _ => rfl⟩
  · decide
  · decide

theorem ragSourcesLoop_length (docs : List RagDoc) :
    ∀ (i : Nat), (ragSourcesLoop i docs).length = docs.length := by
  induction docs with
  | nil => intro i; rfl
  | cons d rest ih => intro i; simp [ragSourcesLoop, ih]

theorem ragSourcesLoop_getElem (docs : List RagDoc) :
    ∀ (i j : Nat),
      (ragSourcesLoop i docs)[j]? =
        (docs[j]?).map (fun d => formatSourceLine (i + j) d) := by
  induction docs with
  | nil => intro i j; simp [ragSourcesLoop]
  | cons d rest ih =>
    intro i j
    cases j with
    | zero => simp [ragSourcesLoop]
    | succ j' =>
      simp only [ragSourcesLoop, List.getElem?_cons_succ]
      rw [ih (i + 1) j']
      have hidx : i + 1 + j' = i + (j' + 1) := by omega
      rw [hidx]

/-- Claim C10: `rag_answer_question` never propagates an exception: when the
chain call raises it returns exactly the fixed error string paired with the
empty source list, and otherwise it returns the chain's answer together with
one formatted source per retrieved document, the i-th formatted with index
i (whose preview is truncated to 100 characters plus "..." when longer). -/
theorem rag_answer_question_spec (chain : PyStr → Option RagResponse) (q : PyStr) :
    (chain q = none → rag_answer_question chain q = (ragErrorReply, [])) ∧
      (∀ resp, chain q = some resp →
        (rag_answer_question chain q).1 = resp.answer ∧
          (rag_answer_question chain q).2.length = resp.source_documents.length ∧
          ∀ j : Nat,
            (rag_answer_question chain q).2[j]? =
              (resp.source_documents[j]?).map (fun d => formatSourceLine j d)) := by
  constructor
  · intro h
    simp only [rag_answer_question, h]
  · intro resp h
    have hr : rag_answer_question chain q =
        (resp.answer, ragSourcesLoop 0 resp.source_documents) := by
      simp only [rag_answer_question, h]
    rw [hr]
    refine ⟨rfl, ragSourcesLoop_length _ 0, ?_⟩
    intro j
    rw [ragSourcesLoop_getElem]
    simp

theorem rag_answer_question_spec_witness :
    rag_answer_question failChain [] = (ragErrorReply, []) ∧
      (rag_answer_question okChain []).1 = ("ans").data ∧
      (rag_answer_question okChain []).2[0]? = some (formatSourceLine 0 witnessDoc) := by
  refine ⟨(rag_answer_question_spec failChain []).1 rfl, ?_, ?_⟩
  · exact ((rag_answer_question_spec okChain []).2 ⟨("ans").data, [witnessDoc]⟩ rfl).1
  · have h := ((rag_answer_question_spec okChain []).2 ⟨("ans").data, [witnessDoc]⟩ rfl).2.2 0
    rw [h]
    rfl
